import Mathlib

/-!
# Verification of the OpenMediaMatch signal-matching engine

A shallow embedding of the OpenMediaMatch matching subsystem
(`blueprints/ui.py` and the match-engine / bank-store contracts of the
design spec), with theorems settling the frozen claims about it.

Conventions:
* fingerprints are strings, distances are exact rationals;
* fallible operations return `Except` / `Option`;
* Python `min(...)` over a possibly-empty sequence (which raises
  `ValueError` when empty) is modelled as an `Option`-valued minimum.
-/

namespace OpenMediaMatch

/-- Fingerprint values (already-computed perceptual hashes) are opaque
strings; only `validate` / `distance` of a signal type interpret them. -/
abbrev Fingerprint := String

/-! ## Index status progress (`_index_info` in `blueprints/ui.py`) -/

/-- One row of `signal_type_index_status()` as consumed by `_index_info`:
the staleness flag and the two size counters for one signal type. -/
structure IndexStatusRow where
  index_out_of_date : Bool
  index_size : Nat
  db_size : Nat

/-- The exact value of the Python expression
`min(a, b) * 100 / max(1, a, b)` computed by `_index_info`
(`a = index_size`, `b = db_size`), as a rational. -/
def IndexStatusRow.pct (dat : IndexStatusRow) : ℚ :=
  (min dat.index_size dat.db_size * 100 : ℚ) /
    (max 1 (max dat.index_size dat.db_size) : ℚ)

/-- `progress` as computed by `_index_info`: `100` when the index is up to
date, else `int(min(90, pct))` (truncation of a non-negative value, i.e.
`Nat.floor`). -/
def IndexStatusRow.progress (dat : IndexStatusRow) : Nat :=
  if dat.index_out_of_date then ⌊min (90 : ℚ) dat.pct⌋₊ else 100

/-- `progress_label` as computed by `_index_info`; `fmt` stands for the
Python `%`-free part of the f-string's `{pct:.2f}` float formatting, which
is external to the embedded logic. -/
def IndexStatusRow.progress_label (dat : IndexStatusRow) (fmt : ℚ → String) : String :=
  if dat.index_out_of_date then
    toString (min dat.index_size dat.db_size) ++ "/" ++
      toString (max dat.index_size dat.db_size) ++ " (" ++ fmt dat.pct ++ "%)"
  else "Up to date"

lemma floor_min_90_div (m M : ℕ) :
    ⌊min (90 : ℚ) ((m : ℚ) / (M : ℚ))⌋₊ = min 90 (m / M) := by
  rcases le_or_lt ((m : ℚ) / (M : ℚ)) 90 with h | h
  · rw [min_eq_right h]
    have hfl : ⌊((m : ℚ) / (M : ℚ))⌋₊ = m / M := by
      rw [Nat.floor_div_nat, Nat.floor_natCast]
    have hle : m / M ≤ 90 := by
      calc m / M = ⌊((m : ℚ) / (M : ℚ))⌋₊ := hfl.symm
        _ ≤ ⌊(90 : ℚ)⌋₊ := Nat.floor_le_floor h
        _ = 90 := by norm_num
    rw [hfl, min_eq_right hle]
  · rw [min_eq_left h.le]
    have h90 : (90 : ℕ) ≤ m / M := by
      have : ((90 : ℕ) : ℚ) ≤ (m : ℚ) / (M : ℚ) := by push_cast; exact h.le
      calc (90 : ℕ) ≤ ⌊((m : ℚ) / (M : ℚ))⌋₊ := Nat.le_floor this
        _ = m / M := by rw [Nat.floor_div_nat, Nat.floor_natCast]
    rw [min_eq_left h90]
    norm_num

/-- **C10**: for every row rendered by `_index_info`: when
`index_out_of_date` is false the progress is `100` with label
"Up to date"; when it is true the progress equals
`min 90 (min index_size db_size * 100 / max 1 (max index_size db_size))`
(natural floor division, total even when both sizes are `0` thanks to the
`max 1` denominator) and is at most `90`; hence the progress is `100`
exactly when the index is up to date. -/
theorem index_info_progress (dat : IndexStatusRow) (fmt : ℚ → String) :
    (dat.index_out_of_date = false →
      dat.progress = 100 ∧ dat.progress_label fmt = "Up to date") ∧
    (dat.index_out_of_date = true →
      dat.progress =
        min 90 (min dat.index_size dat.db_size * 100 /
          max 1 (max dat.index_size dat.db_size)) ∧
      dat.progress ≤ 90) ∧
    (dat.progress = 100 ↔ dat.index_out_of_date = false) := by
  have key : dat.index_out_of_date = true →
      dat.progress =
        min 90 (min dat.index_size dat.db_size * 100 /
          max 1 (max dat.index_size dat.db_size)) := by
    intro h
    have : dat.pct = ((min dat.index_size dat.db_size * 100 : ℕ) : ℚ) /
        ((max 1 (max dat.index_size dat.db_size) : ℕ) : ℚ) := by
      unfold IndexStatusRow.pct
      push_cast
      ring
    rw [IndexStatusRow.progress, if_pos h, this, floor_min_90_div]
  refine ⟨?_, ?_, ?_⟩
  · intro h
    constructor
    · rw [IndexStatusRow.progress, if_neg (by simp [h])]
    · rw [IndexStatusRow.progress_label, if_neg (by simp [h])]
  · intro h
    refine ⟨key h, ?_⟩
    rw [key h]
    exact min_le_left _ _
  · constructor
    · intro h100
      by_contra hne
      have ht : dat.index_out_of_date = true := by
        cases hoo : dat.index_out_of_date
        · exact absurd hoo hne
        · rfl
      have := key ht
      rw [h100] at this
      have : (100 : ℕ) ≤ 90 := this ▸ min_le_left _ _
      omega
    · intro h
      rw [IndexStatusRow.progress, if_neg (by simp [h])]

/-! ## Signal types and the similarity index

Modelled from the spec: the `SignalType` catalog entry (§3) and the
`SimilarityIndex` (§3) — `threatexchange` signal-type classes and the
index structures are not part of the source sample, only their contracts
(`validate`, `distance`, capability flags, `enabled_ratio`). -/

/-- Modelled from the spec: a `SignalType` catalog entry (§3): name,
`enabled_ratio` (≤ 0 disables the type), capability flags, `validate`
(returning `none` on malformed input, the embedding of a raised
`ValidationError`), and `distance`. -/
structure SignalType where
  name : String
  enabled_ratio : ℚ
  supports_threshold_query : Bool
  supports_topk_query : Bool
  validate : String → Option Fingerprint
  distance : Fingerprint → Fingerprint → ℚ

/-- Modelled from the spec: one indexed fingerprint of a published
`SimilarityIndex` (§3), carrying its owning bank and bank-content id. -/
structure IndexEntry where
  fingerprint : Fingerprint
  bank_content_id : Nat
  bank_name : String
deriving DecidableEq, Repr

/-- Modelled from the spec: a published `SimilarityIndex` snapshot for one
signal type: the finite collection of indexed fingerprints. -/
abbrev SimilarityIndex := List IndexEntry

/-- Modelled from the spec: the query-path error taxonomy (§7). -/
inductive QueryError
  | ValidationError
  | NotFound
  | UnsupportedOperation
  | IndexNotReady
  | DisabledSignalType
  | StorageFailure
deriving DecidableEq, Repr

/-- Modelled from the spec (§7): which query-path errors are retryable by
the caller — `IndexNotReady` is transient ("retryable by caller after a
rebuild"), `ValidationError` and the policy errors are not. -/
def QueryError.retryable : QueryError → Bool
  | .IndexNotReady => true
  | _ => false

/-- Modelled from the spec (§7): which errors are system faults —
`ValidationError` is "never logged as a system fault"; only a backend
`StorageFailure` is. -/
def QueryError.isSystemFault : QueryError → Bool
  | .StorageFailure => true
  | _ => false

/-! ## Match ordering -/

/-- The order on result matches `(bank_content_id, distance)`: ascending
by distance, ties broken by ascending `bank_content_id`. -/
def matchLE (m1 m2 : Nat × ℚ) : Prop :=
  m1.2 < m2.2 ∨ (m1.2 = m2.2 ∧ m1.1 ≤ m2.1)

instance : DecidableRel matchLE := fun m1 m2 => by
  unfold matchLE
  infer_instance

instance : IsTotal (Nat × ℚ) matchLE :=
  ⟨fun a b => by
    rcases lt_trichotomy a.2 b.2 with h | h | h
    · exact Or.inl (Or.inl h)
    · rcases Nat.le_total a.1 b.1 with hn | hn
      · exact Or.inl (Or.inr ⟨h, hn⟩)
      · exact Or.inr (Or.inr ⟨h.symm, hn⟩)
    · exact Or.inr (Or.inl h)⟩

instance : IsTrans (Nat × ℚ) matchLE :=
  ⟨fun a b c hab hbc => by
    rcases hab with h1 | ⟨h1, h1'⟩ <;> rcases hbc with h2 | ⟨h2, h2'⟩
    · exact Or.inl (h1.trans h2)
    · exact Or.inl (h2 ▸ h1)
    · exact Or.inl (h1 ▸ h2)
    · exact Or.inr ⟨h1.trans h2, h1'.trans h2'⟩⟩

/-- Global ranking of candidate matches `(bank_name, bank_content_id,
distance)`: ascending by distance, ties by ascending id. -/
def tripleLE (a b : String × Nat × ℚ) : Prop :=
  a.2.2 < b.2.2 ∨ (a.2.2 = b.2.2 ∧ a.2.1 ≤ b.2.1)

instance : DecidableRel tripleLE := fun a b => by
  unfold tripleLE
  infer_instance

instance : IsTotal (String × Nat × ℚ) tripleLE :=
  ⟨fun a b => by
    rcases lt_trichotomy a.2.2 b.2.2 with h | h | h
    · exact Or.inl (Or.inl h)
    · rcases Nat.le_total a.2.1 b.2.1 with hn | hn
      · exact Or.inl (Or.inr ⟨h, hn⟩)
      · exact Or.inr (Or.inr ⟨h.symm, hn⟩)
    · exact Or.inr (Or.inl h)⟩

instance : IsTrans (String × Nat × ℚ) tripleLE :=
  ⟨fun a b c hab hbc => by
    rcases hab with h1 | ⟨h1, h1'⟩ <;> rcases hbc with h2 | ⟨h2, h2'⟩
    · exact Or.inl (h1.trans h2)
    · exact Or.inl (h2 ▸ h1)
    · exact Or.inl (h1 ▸ h2)
    · exact Or.inr ⟨h1.trans h2, h1'.trans h2'⟩⟩

/-! ## MatchEngine core semantics

Modelled from the spec: the `MatchEngine` (§4.5) — the `matching`
blueprint's lookup implementation is not part of the source sample, only
its tests and its UI callers are. -/

/-- The indexed entries whose distance to the query is within `T`
(inclusive). -/
def SignalType.qualifying (st : SignalType) (idx : SimilarityIndex)
    (q : Fingerprint) (T : ℚ) : List IndexEntry :=
  idx.filter fun e => st.distance q e.fingerprint ≤ T

/-- The distinct owning-bank names of a list of entries, in ascending
order. -/
def bankNamesOf (l : List IndexEntry) : List String :=
  ((l.map IndexEntry.bank_name).dedup).insertionSort (· ≤ ·)

/-- Bank `b`'s matches within threshold `T`: the qualifying entries owned
by `b`, as `(bank_content_id, distance)` pairs sorted ascending by
distance with ties broken by ascending id. -/
def SignalType.bankMatches (st : SignalType) (idx : SimilarityIndex)
    (q : Fingerprint) (T : ℚ) (b : String) : List (Nat × ℚ) :=
  (((st.qualifying idx q T).filter fun e => e.bank_name = b).map
    fun e => (e.bank_content_id, st.distance q e.fingerprint)).insertionSort matchLE

/-- Modelled from the spec: the threshold-query semantics of
`MatchEngine.threshold_lookup` (§4.5) — every indexed fingerprint within
distance `T` of the query, grouped by owning bank; banks with no
qualifying match are omitted. -/
def SignalType.thresholdResult (st : SignalType) (idx : SimilarityIndex)
    (q : Fingerprint) (T : ℚ) : List (String × List (Nat × ℚ)) :=
  (bankNamesOf (st.qualifying idx q T)).map fun b => (b, st.bankMatches idx q T b)

/-- The candidate pool of a top-k query: all indexed entries, filtered to
distance ≤ `maxT` when a maximum threshold is supplied. -/
def SignalType.topkPool (st : SignalType) (idx : SimilarityIndex)
    (q : Fingerprint) (maxT : Option ℚ) : List IndexEntry :=
  match maxT with
  | some T => st.qualifying idx q T
  | none => idx

/-- The globally k-closest candidates `(bank_name, bank_content_id,
distance)`: the pool ranked by distance (ties by ascending id) before any
bank grouping, truncated to `k`. -/
def SignalType.topkTaken (st : SignalType) (idx : SimilarityIndex)
    (q : Fingerprint) (k : Nat) (maxT : Option ℚ) : List (String × Nat × ℚ) :=
  (((st.topkPool idx q maxT).map fun e =>
      (e.bank_name, e.bank_content_id, st.distance q e.fingerprint)).insertionSort
        tripleLE).take k

/-- Modelled from the spec: the top-k semantics of
`MatchEngine.topk_lookup` (§4.5) — candidates optionally filtered to
distance ≤ `maxT`, globally ranked by distance (ties by id) before
grouping, truncated to at most `k`, then grouped by owning bank. -/
def SignalType.topkResult (st : SignalType) (idx : SimilarityIndex)
    (q : Fingerprint) (k : Nat) (maxT : Option ℚ) : List (String × List (Nat × ℚ)) :=
  ((((st.topkTaken idx q k maxT).map Prod.fst).dedup).insertionSort (· ≤ ·)).map
    fun b => (b, ((st.topkTaken idx q k maxT).filter fun tr => tr.1 = b).map Prod.snd)

/-- An output match of the HTTP result shape `TMatchByBank`: an integer
`bank_content_id` and the distance rendered as a string. -/
structure MatchOut where
  bank_content_id : Nat
  distance : String
deriving DecidableEq, Repr

/-- Modelled from the spec: the fixed-precision (two decimal places)
string rendering of a distance (§4.5: "distance is rendered as a
fixed-precision string", e.g. `"0.00"`); distances are non-negative
(§3 invariant). -/
def renderDistance (d : ℚ) : String :=
  let n : Nat := ⌊d * 100⌋₊
  toString (n / 100) ++ "." ++
    (if n % 100 < 10 then "0" ++ toString (n % 100) else toString (n % 100))

/-- Serialize a grouped result: each numeric match becomes a `MatchOut`
with its distance rendered by `renderDistance`. -/
def renderResult (r : List (String × List (Nat × ℚ))) : List (String × List MatchOut) :=
  r.map fun p => (p.1, p.2.map fun m => ⟨m.1, renderDistance m.2⟩)

/-- Modelled from the spec: `MatchEngine.threshold_lookup` (§4.5) — fails
with `UnsupportedOperation` when the type lacks threshold-query support,
with `ValidationError` when the fingerprint fails `validate`, with
`IndexNotReady` when no index has ever been published; otherwise answers
from the published snapshot. -/
def threshold_lookup (st : SignalType) (idx : Option SimilarityIndex)
    (raw : String) (T : ℚ) : Except QueryError (List (String × List MatchOut)) :=
  if st.supports_threshold_query = false then .error .UnsupportedOperation
  else
    match st.validate raw with
    | none => .error .ValidationError
    | some q =>
      match idx with
      | none => .error .IndexNotReady
      | some snapshot => .ok (renderResult (st.thresholdResult snapshot q T))

/-- Modelled from the spec: `MatchEngine.topk_lookup` (§4.5) — as
`threshold_lookup`, with the additional `ValidationError` on `k ≤ 0`. -/
def topk_lookup (st : SignalType) (idx : Option SimilarityIndex)
    (raw : String) (k : Int) (maxT : Option ℚ) :
    Except QueryError (List (String × List MatchOut)) :=
  if st.supports_topk_query = false then .error .UnsupportedOperation
  else if k ≤ 0 then .error .ValidationError
  else
    match st.validate raw with
    | none => .error .ValidationError
    | some q =>
      match idx with
      | none => .error .IndexNotReady
      | some snapshot => .ok (renderResult (st.topkResult snapshot q k.toNat maxT))

/-- Modelled from the spec: the registry-level policy (§4.1) that a
disabled signal type (`enabled_ratio ≤ 0`) is excluded from querying —
the query entry point rejects it with `DisabledSignalType` before
dispatching to the engine. -/
def query_threshold (st : SignalType) (idx : Option SimilarityIndex)
    (raw : String) (T : ℚ) : Except QueryError (List (String × List MatchOut)) :=
  if st.enabled_ratio ≤ 0 then .error .DisabledSignalType
  else threshold_lookup st idx raw T

/-- Modelled from the spec: registry-level disabled-type policy (§4.1)
for top-k queries. -/
def query_topk (st : SignalType) (idx : Option SimilarityIndex)
    (raw : String) (k : Int) (maxT : Option ℚ) :
    Except QueryError (List (String × List MatchOut)) :=
  if st.enabled_ratio ≤ 0 then .error .DisabledSignalType
  else topk_lookup st idx raw k maxT

/-! ## BankStore and the UI add path -/

/-- One stored bank-content item: its store-assigned id, owning bank, and
validated fingerprints keyed by signal-type name. Bank/content enablement
and collaboration metadata (§3) are elided: no settled claim concerns
them. -/
structure StoredContent where
  id : Nat
  bank_name : String
  signals : List (String × Fingerprint)
deriving DecidableEq, Repr

/-- The store as seen by the add path: existing bank names, the
signal-type configuration catalog, the stored content, and the next
store-assigned content id (ids are monotonic, §3). -/
structure BankStore where
  banks : List String
  signal_type_configs : List SignalType
  contents : List StoredContent
  next_id : Nat

/-- Modelled from the spec: the error taxonomy of
`BankStore.add_content` (§4.2). -/
inductive AddError
  | UnknownBank
  | InvalidSignal
deriving DecidableEq, Repr

/-- Modelled from the spec: `BankStore.add_content` (§4.2) — fails with
`UnknownBank` if the bank is absent, with `InvalidSignal` if any supplied
fingerprint fails its signal type's `validate`; otherwise assigns the
fresh store id to the new content and advances the id counter. The
backing `bank_add_content` of the storage layer is not part of the source
sample. -/
def add_content (store : BankStore) (bank_name : String)
    (signals : List (SignalType × String)) : Except AddError (Nat × BankStore) :=
  if bank_name ∈ store.banks then
    if signals.all (fun p => (p.1.validate p.2).isSome) then
      .ok (store.next_id,
        { store with
          contents := ⟨store.next_id, bank_name,
              signals.filterMap fun p => (p.1.validate p.2).map fun v => (p.1.name, v)⟩
            :: store.contents,
          next_id := store.next_id + 1 })
    else .error .InvalidSignal
  else .error .UnknownBank

/-- The error outcomes of the `add_hash_to_bank` route (`blueprints/ui.py`):
each constructor is one of its `abort` sites, in source order. -/
inductive UiError
  | MissingParam
  | BankNotFound
  | NoSuchSignalType
  | SignalTypeDisabled
  | InvalidHash
  | AddFailed
deriving DecidableEq, Repr

/-- The HTTP status each `abort` of `add_hash_to_bank` uses: `404` for a
missing bank, `400` for everything else. -/
def UiError.http_status : UiError → Nat
  | .BankNotFound => 404
  | _ => 400

/-- `storage.get_signal_type_configs().get(signal_type)`: configuration
lookup by signal-type name. -/
def find_signal_type_config (store : BankStore) (name : String) : Option SignalType :=
  store.signal_type_configs.find? fun st => st.name = name

/-- The `add_hash_to_bank` route of `blueprints/ui.py`: rejects missing
form fields, an unknown bank (HTTP 404), an unknown or disabled signal
type, and a hash failing `validate_signal_str` (each HTTP 400, in that
order), then delegates to the store's add-content operation. A missing
form value and an empty string are both falsy in the Python, so both are
the empty string here. -/
def add_hash_to_bank (store : BankStore) (hash_value signal_type bank_name : String) :
    Except UiError (Nat × BankStore) :=
  if hash_value = "" ∨ signal_type = "" ∨ bank_name = "" then .error .MissingParam
  else if bank_name ∈ store.banks then
    match find_signal_type_config store signal_type with
    | none => .error .NoSuchSignalType
    | some cfg =>
      if cfg.enabled_ratio ≤ 0 then .error .SignalTypeDisabled
      else
        match cfg.validate hash_value with
        | none => .error .InvalidHash
        | some _ =>
          match add_content store bank_name [(cfg, hash_value)] with
          | .error _ => .error .AddFailed
          | .ok r => .ok r
  else .error .BankNotFound

/-- Modelled from the spec: `SimilarityIndexBuilder.build_all_indices`
(§4.4) builds only for enabled signal types — a type with
`enabled_ratio ≤ 0` is excluded from indexing (§4.1). -/
def indexedSignalTypes (types : List SignalType) : List SignalType :=
  types.filter fun t => 0 < t.enabled_ratio

/-- Modelled from the spec: the per-type index build (§4.4) — one entry
per stored content item carrying a fingerprint for the type. -/
def buildIndexFor (t : SignalType) (store : BankStore) : SimilarityIndex :=
  store.contents.filterMap fun c =>
    (c.signals.lookup t.name).map fun fp =>
      { fingerprint := fp, bank_content_id := c.id, bank_name := c.bank_name }

/-- Modelled from the spec: `build_all_indices` (§4.4) — a fresh index is
built and published for each enabled signal type only. -/
def build_all_indices (types : List SignalType) (store : BankStore) :
    List (SignalType × SimilarityIndex) :=
  (indexedSignalTypes types).map fun t => (t, buildIndexFor t store)

/-! ## Threshold-query characterization -/

/-- `(id, d)` is one of bank `b`'s matches in a grouped result `r`. -/
def matchMem (r : List (String × List (Nat × ℚ))) (b : String) (id : Nat) (d : ℚ) : Prop :=
  ∃ ml, (b, ml) ∈ r ∧ (id, d) ∈ ml

lemma mem_qualifying {st : SignalType} {idx : SimilarityIndex} {q : Fingerprint}
    {T : ℚ} {e : IndexEntry} :
    e ∈ st.qualifying idx q T ↔ e ∈ idx ∧ st.distance q e.fingerprint ≤ T := by
  simp [SignalType.qualifying, List.mem_filter]

lemma mem_bankNamesOf {l : List IndexEntry} {b : String} :
    b ∈ bankNamesOf l ↔ ∃ e ∈ l, e.bank_name = b := by
  simp [bankNamesOf, List.mem_insertionSort, List.mem_dedup, List.mem_map]

lemma mem_bankMatches {st : SignalType} {idx : SimilarityIndex} {q : Fingerprint}
    {T : ℚ} {b : String} {id : Nat} {d : ℚ} :
    (id, d) ∈ st.bankMatches idx q T b ↔
      ∃ e ∈ idx, st.distance q e.fingerprint ≤ T ∧ e.bank_name = b ∧
        e.bank_content_id = id ∧ st.distance q e.fingerprint = d := by
  unfold SignalType.bankMatches
  rw [List.mem_insertionSort]
  simp only [List.mem_map, List.mem_filter, mem_qualifying, Prod.mk.injEq,
    decide_eq_true_eq]
  constructor
  · rintro ⟨e, ⟨⟨he, hT⟩, hb⟩, hid, hd⟩
    exact ⟨e, he, hT, hb, hid, hd⟩
  · rintro ⟨e, he, hT, hb, hid, hd⟩
    exact ⟨e, ⟨⟨he, hT⟩, hb⟩, hid, hd⟩

lemma mem_thresholdResult {st : SignalType} {idx : SimilarityIndex} {q : Fingerprint}
    {T : ℚ} {b : String} {ml : List (Nat × ℚ)} :
    (b, ml) ∈ st.thresholdResult idx q T ↔
      b ∈ bankNamesOf (st.qualifying idx q T) ∧ ml = st.bankMatches idx q T b := by
  unfold SignalType.thresholdResult
  simp only [List.mem_map, Prod.mk.injEq]
  constructor
  · rintro ⟨b', hb', rfl, rfl⟩
    exact ⟨hb', rfl⟩
  · rintro ⟨hb, rfl⟩
    exact ⟨b, hb, rfl, rfl⟩

lemma matchMem_thresholdResult {st : SignalType} {idx : SimilarityIndex}
    {q : Fingerprint} {T : ℚ} {b : String} {id : Nat} {d : ℚ} :
    matchMem (st.thresholdResult idx q T) b id d ↔
      ∃ e ∈ idx, e.bank_name = b ∧ e.bank_content_id = id ∧
        st.distance q e.fingerprint = d ∧ d ≤ T := by
  constructor
  · rintro ⟨ml, hml, hin⟩
    rw [mem_thresholdResult] at hml
    rcases hml with ⟨-, rfl⟩
    rcases mem_bankMatches.1 hin with ⟨e, he, hT, hb, hid, hd⟩
    exact ⟨e, he, hb, hid, hd, hd ▸ hT⟩
  · rintro ⟨e, he, hb, hid, hd, hT⟩
    refine ⟨st.bankMatches idx q T b, ?_, ?_⟩
    · rw [mem_thresholdResult]
      refine ⟨mem_bankNamesOf.2 ⟨e, mem_qualifying.2 ⟨he, hd ▸ hT⟩, hb⟩, rfl⟩
    · exact mem_bankMatches.2 ⟨e, he, hd ▸ hT, hb, hid, hd⟩

lemma sorted_thresholdResult {st : SignalType} {idx : SimilarityIndex}
    {q : Fingerprint} {T : ℚ} {p : String × List (Nat × ℚ)}
    (hp : p ∈ st.thresholdResult idx q T) : p.2.Sorted matchLE := by
  rcases p with ⟨b, ml⟩
  rcases mem_thresholdResult.1 hp with ⟨-, rfl⟩
  exact List.sorted_insertionSort matchLE _

/-- **C1**: for every published index, validated query fingerprint and
thresholds `T ≤ T'`: `threshold_lookup` answers with exactly the grouped
threshold result; a match `(id, d)` appears under bank `b` iff some
indexed entry of that bank has that id and distance `d ≤ T` (inclusive);
each bank's matches are sorted ascending by distance with ties broken by
ascending `bank_content_id`; and every match returned at threshold `T` is
also returned at the larger threshold `T'` (monotonicity). -/
theorem threshold_lookup_semantics (st : SignalType) (idx : SimilarityIndex)
    (raw : String) (q : Fingerprint) (T T' : ℚ)
    (hsup : st.supports_threshold_query = true)
    (hval : st.validate raw = some q) (hTT : T ≤ T') :
    threshold_lookup st (some idx) raw T =
        .ok (renderResult (st.thresholdResult idx q T)) ∧
    (∀ b id d, matchMem (st.thresholdResult idx q T) b id d ↔
        ∃ e ∈ idx, e.bank_name = b ∧ e.bank_content_id = id ∧
          st.distance q e.fingerprint = d ∧ d ≤ T) ∧
    (∀ p ∈ st.thresholdResult idx q T, p.2.Sorted matchLE) ∧
    (∀ b id d, matchMem (st.thresholdResult idx q T) b id d →
        matchMem (st.thresholdResult idx q T') b id d) := by
  refine ⟨?_, ?_, ?_, ?_⟩
  · unfold threshold_lookup
    rw [hsup, hval]
    simp
  · intro b id d
    exact matchMem_thresholdResult
  · intro p hp
    exact sorted_thresholdResult hp
  · intro b id d h
    rcases matchMem_thresholdResult.1 h with ⟨e, he, hb, hid, hd, hT⟩
    exact matchMem_thresholdResult.2 ⟨e, he, hb, hid, hd, hT.trans hTT⟩

/-! ### Concrete instances used by the witnesses -/

/-- A concrete signal type for witnesses: validates everything except the
string `"bad"`, distance is the absolute difference of lengths. -/
def stW : SignalType where
  name := "clip"
  enabled_ratio := 1
  supports_threshold_query := true
  supports_topk_query := true
  validate := fun s => if s = "bad" then none else some s
  distance := fun a b => (((a.length : ℤ) - (b.length : ℤ)).natAbs : ℚ)

/-- A concrete published index for witnesses: two banks, three entries at
distances 1, 3 and 5 from the query `"q"`. -/
def idxW : SimilarityIndex :=
  [⟨"aa", 1, "B1"⟩, ⟨"aaaa", 2, "B1"⟩, ⟨"aaaaaa", 3, "B2"⟩]

/-- Witness for C1 at a concrete input: the hypotheses hold for `stW`,
`idxW`, query `"q"`, thresholds `1 ≤ 3`, and the lookup answers with the
grouped threshold result. -/
theorem threshold_lookup_semantics_witness :
    stW.supports_threshold_query = true ∧ stW.validate "q" = some "q" ∧
    (1 : ℚ) ≤ 3 ∧
    threshold_lookup stW (some idxW) "q" 1 =
      .ok (renderResult (stW.thresholdResult idxW "q" 1)) :=
  ⟨rfl, rfl, by norm_num,
    (threshold_lookup_semantics stW idxW "q" "q" 1 3 rfl rfl (by norm_num)).1⟩

/-- A concrete disabled signal type for witnesses (`enabled_ratio = 0`),
which also supports neither query kind. -/
def stDisabledW : SignalType where
  name := "pdq"
  enabled_ratio := 0
  supports_threshold_query := false
  supports_topk_query := false
  validate := fun s => some s
  distance := fun _ _ => 0

/-- A concrete bank store for witnesses: two banks, both signal types
configured, one stored content item, next id `1`. -/
def storeW : BankStore where
  banks := ["B1", "B2"]
  signal_type_configs := [stW, stDisabledW]
  contents := [⟨0, "B1", [("clip", "aa")]⟩]
  next_id := 1

/-! ## Error-path claims -/

/-- **C2**: a signal type whose capability flags lack the requested query
kind is rejected with `UnsupportedOperation` — and in particular the
query never silently returns a (possibly empty) result. -/
theorem unsupported_query_rejected (st : SignalType) (idx : Option SimilarityIndex)
    (raw : String) (T : ℚ) (k : Int) (maxT : Option ℚ) :
    (st.supports_threshold_query = false →
      threshold_lookup st idx raw T = .error .UnsupportedOperation ∧
      ∀ r, threshold_lookup st idx raw T ≠ .ok r) ∧
    (st.supports_topk_query = false →
      topk_lookup st idx raw k maxT = .error .UnsupportedOperation ∧
      ∀ r, topk_lookup st idx raw k maxT ≠ .ok r) := by
  constructor
  · intro h
    have he : threshold_lookup st idx raw T = .error .UnsupportedOperation := by
      unfold threshold_lookup
      rw [h]
      simp
    refine ⟨he, fun r hr => ?_⟩
    rw [he] at hr
    cases hr
  · intro h
    have he : topk_lookup st idx raw k maxT = .error .UnsupportedOperation := by
      unfold topk_lookup
      rw [h]
      simp
    refine ⟨he, fun r hr => ?_⟩
    rw [he] at hr
    cases hr

/-- **C3**: on a well-formed query against a signal type for which no
index has ever been published, both lookups fail with `IndexNotReady`,
which the caller can distinguish as retryable, unlike the non-retryable
`ValidationError`. -/
theorem index_not_ready_retryable (st : SignalType) (raw : String) (q : Fingerprint)
    (T : ℚ) (k : Int) (maxT : Option ℚ)
    (hth : st.supports_threshold_query = true)
    (htk : st.supports_topk_query = true)
    (hval : st.validate raw = some q) (hk : 0 < k) :
    threshold_lookup st none raw T = .error .IndexNotReady ∧
    topk_lookup st none raw k maxT = .error .IndexNotReady ∧
    QueryError.retryable .IndexNotReady = true ∧
    QueryError.retryable .ValidationError = false := by
  refine ⟨?_, ?_, rfl, rfl⟩
  · unfold threshold_lookup
    rw [hth, hval]
    simp
  · unfold topk_lookup
    rw [htk, hval]
    simp [not_le.mpr hk]

/-- Witness for C3 at a concrete input: the hypotheses hold for `stW`,
query `"q"`, `k = 1`, and both unpublished-index lookups fail retryably. -/
theorem index_not_ready_retryable_witness :
    stW.supports_threshold_query = true ∧ stW.supports_topk_query = true ∧
    stW.validate "q" = some "q" ∧ (0 : Int) < 1 ∧
    (threshold_lookup stW none "q" 1 = .error .IndexNotReady ∧
      topk_lookup stW none "q" 1 none = .error .IndexNotReady ∧
      QueryError.retryable .IndexNotReady = true ∧
      QueryError.retryable .ValidationError = false) :=
  ⟨rfl, rfl, rfl, by decide,
    index_not_ready_retryable stW "q" "q" 1 1 none rfl rfl rfl (by decide)⟩

/-- **C4**: a top-k query with `k ≤ 0` on a type supporting top-k fails
with `ValidationError` — it never returns an (empty or truncated) ok
result. -/
theorem topk_nonpositive_k_rejected (st : SignalType) (idx : Option SimilarityIndex)
    (raw : String) (k : Int) (maxT : Option ℚ)
    (hsup : st.supports_topk_query = true) (hk : k ≤ 0) :
    topk_lookup st idx raw k maxT = .error .ValidationError ∧
    ∀ r, topk_lookup st idx raw k maxT ≠ .ok r := by
  have he : topk_lookup st idx raw k maxT = .error .ValidationError := by
    unfold topk_lookup
    rw [hsup]
    simp [hk]
  refine ⟨he, fun r hr => ?_⟩
  rw [he] at hr
  cases hr

/-- Witness for C4 at a concrete input: `stW` supports top-k, `k = 0`,
and the lookup fails with `ValidationError`. -/
theorem topk_nonpositive_k_rejected_witness :
    stW.supports_topk_query = true ∧ (0 : Int) ≤ 0 ∧
    (topk_lookup stW (some idxW) "q" 0 none = .error .ValidationError ∧
      ∀ r, topk_lookup stW (some idxW) "q" 0 none ≠ .ok r) :=
  ⟨rfl, by decide, topk_nonpositive_k_rejected stW (some idxW) "q" 0 none rfl (by decide)⟩

/-- **C6**: a fingerprint string failing the signal type's `validate`
makes either query fail with `ValidationError`, an error reported to the
caller as a normal outcome: neither a system fault nor retryable. -/
theorem invalid_signal_rejected (st : SignalType) (idx : Option SimilarityIndex)
    (raw : String) (T : ℚ) (k : Int) (maxT : Option ℚ)
    (hth : st.supports_threshold_query = true)
    (htk : st.supports_topk_query = true)
    (hk : 0 < k) (hval : st.validate raw = none) :
    threshold_lookup st idx raw T = .error .ValidationError ∧
    topk_lookup st idx raw k maxT = .error .ValidationError ∧
    QueryError.isSystemFault .ValidationError = false ∧
    QueryError.retryable .ValidationError = false := by
  refine ⟨?_, ?_, rfl, rfl⟩
  · unfold threshold_lookup
    rw [hth, hval]
    simp
  · unfold topk_lookup
    rw [htk, hval]
    simp [not_le.mpr hk]

/-- Witness for C6 at a concrete input: `stW` rejects the string
`"bad"`, and both lookups fail with `ValidationError` on it. -/
theorem invalid_signal_rejected_witness :
    stW.supports_threshold_query = true ∧ stW.supports_topk_query = true ∧
    (0 : Int) < 1 ∧ stW.validate "bad" = none ∧
    (threshold_lookup stW (some idxW) "bad" 1 = .error .ValidationError ∧
      topk_lookup stW (some idxW) "bad" 1 none = .error .ValidationError ∧
      QueryError.isSystemFault .ValidationError = false ∧
      QueryError.retryable .ValidationError = false) :=
  ⟨rfl, rfl, by decide, rfl,
    invalid_signal_rejected stW (some idxW) "bad" 1 1 none rfl rfl (by decide) rfl⟩

/-! ## Result-shape claims -/

lemma threshold_lookup_ok {st : SignalType} {idx : Option SimilarityIndex}
    {raw : String} {T : ℚ} {r : List (String × List MatchOut)}
    (hok : threshold_lookup st idx raw T = .ok r) :
    ∃ q snapshot, st.validate raw = some q ∧ idx = some snapshot ∧
      r = renderResult (st.thresholdResult snapshot q T) := by
  unfold threshold_lookup at hok
  split at hok
  · cases hok
  · split at hok
    · cases hok
    · rename_i q hq
      split at hok
      · cases hok
      · rename_i snapshot
        simp only [Except.ok.injEq] at hok
        exact ⟨q, snapshot, hq, rfl, hok.symm⟩

lemma topk_lookup_ok {st : SignalType} {idx : Option SimilarityIndex}
    {raw : String} {k : Int} {maxT : Option ℚ} {r : List (String × List MatchOut)}
    (hok : topk_lookup st idx raw k maxT = .ok r) :
    ∃ q snapshot, st.validate raw = some q ∧ idx = some snapshot ∧
      r = renderResult (st.topkResult snapshot q k.toNat maxT) := by
  unfold topk_lookup at hok
  split at hok
  · cases hok
  · split at hok
    · cases hok
    · split at hok
      · cases hok
      · rename_i q hq
        split at hok
        · cases hok
        · rename_i snapshot
          simp only [Except.ok.injEq] at hok
          exact ⟨q, snapshot, hq, rfl, hok.symm⟩

lemma thresholdResult_ne_nil {st : SignalType} {idx : SimilarityIndex}
    {q : Fingerprint} {T : ℚ} {b : String} {ml : List (Nat × ℚ)}
    (h : (b, ml) ∈ st.thresholdResult idx q T) : ml ≠ [] := by
  rcases mem_thresholdResult.1 h with ⟨hb, rfl⟩
  rcases mem_bankNamesOf.1 hb with ⟨e, he, rfl⟩
  rcases mem_qualifying.1 he with ⟨he', hT⟩
  exact List.ne_nil_of_mem
    (mem_bankMatches.2 ⟨e, he', hT, rfl, rfl, rfl⟩)

lemma mem_topkResult {st : SignalType} {idx : SimilarityIndex} {q : Fingerprint}
    {k : Nat} {maxT : Option ℚ} {b : String} {ml : List (Nat × ℚ)} :
    (b, ml) ∈ st.topkResult idx q k maxT ↔
      b ∈ (((st.topkTaken idx q k maxT).map Prod.fst).dedup).insertionSort (· ≤ ·) ∧
      ml = ((st.topkTaken idx q k maxT).filter fun tr => tr.1 = b).map Prod.snd := by
  unfold SignalType.topkResult
  simp only [List.mem_map, Prod.mk.injEq]
  constructor
  · rintro ⟨b', hb', rfl, rfl⟩
    exact ⟨hb', rfl⟩
  · rintro ⟨hb, rfl⟩
    exact ⟨b, hb, rfl, rfl⟩

lemma topkResult_ne_nil {st : SignalType} {idx : SimilarityIndex} {q : Fingerprint}
    {k : Nat} {maxT : Option ℚ} {b : String} {ml : List (Nat × ℚ)}
    (h : (b, ml) ∈ st.topkResult idx q k maxT) : ml ≠ [] := by
  rcases mem_topkResult.1 h with ⟨hb, rfl⟩
  rw [List.mem_insertionSort, List.mem_dedup, List.mem_map] at hb
  rcases hb with ⟨tr, htr, rfl⟩
  exact List.ne_nil_of_mem
    (List.mem_map_of_mem Prod.snd (List.mem_filter.2 ⟨htr, by simp⟩))

lemma mem_renderResult {r : List (String × List (Nat × ℚ))} {p : String × List MatchOut}
    (hp : p ∈ renderResult r) :
    ∃ pl, (p.1, pl) ∈ r ∧ p.2 = pl.map fun m => ⟨m.1, renderDistance m.2⟩ := by
  unfold renderResult at hp
  rw [List.mem_map] at hp
  rcases hp with ⟨⟨b, pl⟩, hmem, heq⟩
  subst heq
  exact ⟨pl, hmem, rfl⟩

/-- **C5**: every successful `threshold_lookup` or `topk_lookup` result
groups matches by bank with no empty group (a bank with no qualifying
match is omitted from the mapping), and each match carries an integer
`bank_content_id` (the `Nat` field of `MatchOut`) together with its
distance rendered as a fixed-precision string by `renderDistance`. -/
theorem lookup_result_shape (st : SignalType) (idx : Option SimilarityIndex)
    (raw : String) (T : ℚ) (k : Int) (maxT : Option ℚ)
    (r r' : List (String × List MatchOut))
    (hok : threshold_lookup st idx raw T = .ok r)
    (hok' : topk_lookup st idx raw k maxT = .ok r') :
    (∀ p ∈ r, p.2 ≠ [] ∧ ∀ m ∈ p.2, ∃ d : ℚ, m.distance = renderDistance d) ∧
    (∀ p ∈ r', p.2 ≠ [] ∧ ∀ m ∈ p.2, ∃ d : ℚ, m.distance = renderDistance d) := by
  constructor
  · rcases threshold_lookup_ok hok with ⟨q, snapshot, -, -, rfl⟩
    intro p hp
    rcases mem_renderResult hp with ⟨pl, hmem, hpl⟩
    constructor
    · rw [hpl]
      simpa using thresholdResult_ne_nil hmem
    · rw [hpl]
      intro m hm
      rw [List.mem_map] at hm
      rcases hm with ⟨⟨mid, d⟩, -, rfl⟩
      exact ⟨d, rfl⟩
  · rcases topk_lookup_ok hok' with ⟨q, snapshot, -, -, rfl⟩
    intro p hp
    rcases mem_renderResult hp with ⟨pl, hmem, hpl⟩
    constructor
    · rw [hpl]
      simpa using topkResult_ne_nil hmem
    · rw [hpl]
      intro m hm
      rw [List.mem_map] at hm
      rcases hm with ⟨⟨mid, d⟩, -, rfl⟩
      exact ⟨d, rfl⟩

/-- Witness for C5 at a concrete input: both lookups succeed on `stW`,
`idxW`, query `"q"`, and their results have the guaranteed shape. -/
theorem lookup_result_shape_witness :
    threshold_lookup stW (some idxW) "q" 1 =
        .ok (renderResult (stW.thresholdResult idxW "q" 1)) ∧
    topk_lookup stW (some idxW) "q" 2 none =
        .ok (renderResult (stW.topkResult idxW "q" ((2 : Int)).toNat none)) ∧
    ((∀ p ∈ renderResult (stW.thresholdResult idxW "q" 1),
        p.2 ≠ [] ∧ ∀ m ∈ p.2, ∃ d : ℚ, m.distance = renderDistance d) ∧
      (∀ p ∈ renderResult (stW.topkResult idxW "q" ((2 : Int)).toNat none),
        p.2 ≠ [] ∧ ∀ m ∈ p.2, ∃ d : ℚ, m.distance = renderDistance d)) :=
  ⟨rfl, rfl, lookup_result_shape stW (some idxW) "q" 1 2 none _ _ rfl rfl⟩

/-- **C7**: `add_content` fails with `UnknownBank` when the bank is
absent; with `InvalidSignal` when any supplied fingerprint fails its
type's `validate`; and otherwise (given the store invariant that every
stored id is below the id counter) assigns the next store id — an id no
existing content has — and preserves the invariant. -/
theorem add_content_contract (store : BankStore) (bank_name : String)
    (signals : List (SignalType × String))
    (hinv : ∀ c ∈ store.contents, c.id < store.next_id) :
    (bank_name ∉ store.banks →
      add_content store bank_name signals = .error .UnknownBank) ∧
    (bank_name ∈ store.banks → (∃ p ∈ signals, p.1.validate p.2 = none) →
      add_content store bank_name signals = .error .InvalidSignal) ∧
    (bank_name ∈ store.banks → (∀ p ∈ signals, (p.1.validate p.2).isSome = true) →
      ∃ store', add_content store bank_name signals = .ok (store.next_id, store') ∧
        (∀ c ∈ store.contents, c.id ≠ store.next_id) ∧
        (∀ c ∈ store'.contents, c.id < store'.next_id)) := by
  refine ⟨?_, ?_, ?_⟩
  · intro hb
    unfold add_content
    rw [if_neg hb]
  · intro hb hbad
    unfold add_content
    rw [if_pos hb, if_neg ?_]
    rcases hbad with ⟨p, hp, hnone⟩
    rw [List.all_eq_true]
    push_neg
    exact ⟨p, hp, by simp [hnone]⟩
  · intro hb hall
    refine ⟨{ store with
        contents := ⟨store.next_id, bank_name,
            signals.filterMap fun p => (p.1.validate p.2).map fun v => (p.1.name, v)⟩
          :: store.contents,
        next_id := store.next_id + 1 }, ?_, ?_, ?_⟩
    · unfold add_content
      rw [if_pos hb, if_pos ?_]
      rw [List.all_eq_true]
      exact hall
    · intro c hc
      exact Nat.ne_of_lt (hinv c hc)
    · intro c hc
      rcases List.mem_cons.1 hc with rfl | hc
      · exact Nat.lt_succ_self _
      · exact Nat.lt_succ_of_lt (hinv c hc)

/-- Witness for C7 at a concrete input: the id invariant holds for
`storeW`, and adding a valid `clip` hash to existing bank `"B1"` assigns
the fresh id `1`. -/
theorem add_content_contract_witness :
    (∀ c ∈ storeW.contents, c.id < storeW.next_id) ∧
    ∃ store', add_content storeW "B1" [(stW, "aaa")] = .ok (storeW.next_id, store') ∧
      (∀ c ∈ storeW.contents, c.id ≠ storeW.next_id) ∧
      (∀ c ∈ store'.contents, c.id < store'.next_id) :=
  ⟨by decide,
    (add_content_contract storeW "B1" [(stW, "aaa")] (by decide)).2.2
      (by decide) (by decide)⟩

/-- **C8**: a signal type with `enabled_ratio ≤ 0` is rejected by both
query entry points with `DisabledSignalType`, is excluded from index
builds, and adding content of that type through the UI add route is
rejected at the disabled-type check. -/
theorem disabled_signal_type_excluded (st : SignalType) (idx : Option SimilarityIndex)
    (raw : String) (T : ℚ) (k : Int) (maxT : Option ℚ) (types : List SignalType)
    (store : BankStore) (hash_value bank_name : String)
    (hdis : st.enabled_ratio ≤ 0) :
    query_threshold st idx raw T = .error .DisabledSignalType ∧
    query_topk st idx raw k maxT = .error .DisabledSignalType ∧
    st ∉ indexedSignalTypes types ∧
    (∀ p ∈ build_all_indices types store, p.1 ≠ st) ∧
    (hash_value ≠ "" → st.name ≠ "" → bank_name ≠ "" → bank_name ∈ store.banks →
      find_signal_type_config store st.name = some st →
      add_hash_to_bank store hash_value st.name bank_name =
        .error .SignalTypeDisabled) := by
  have hnotmem : st ∉ indexedSignalTypes types := by
    intro hmem
    rw [indexedSignalTypes, List.mem_filter] at hmem
    have : 0 < st.enabled_ratio := by simpa using hmem.2
    exact absurd hdis (not_le.mpr this)
  refine ⟨?_, ?_, hnotmem, ?_, ?_⟩
  · unfold query_threshold
    rw [if_pos hdis]
  · unfold query_topk
    rw [if_pos hdis]
  · intro p hp
    rw [build_all_indices, List.mem_map] at hp
    rcases hp with ⟨t, ht, rfl⟩
    intro hEq
    exact hnotmem (hEq ▸ ht)
  · intro hv hn hb hbank hfind
    unfold add_hash_to_bank
    rw [if_neg (by simp [hv, hn, hb]), if_pos hbank, hfind]
    simp [hdis]

/-- Witness for C8 at a concrete input: `stDisabledW` has
`enabled_ratio ≤ 0`; both query entry points reject it and the UI add
route rejects a hash of that type into the existing bank `"B1"` of
`storeW`. -/
theorem disabled_signal_type_excluded_witness :
    stDisabledW.enabled_ratio ≤ 0 ∧
    (query_threshold stDisabledW none "x" 1 = .error .DisabledSignalType ∧
      query_topk stDisabledW none "x" 1 none = .error .DisabledSignalType) ∧
    add_hash_to_bank storeW "h" stDisabledW.name "B1" = .error .SignalTypeDisabled := by
  have h := disabled_signal_type_excluded stDisabledW none "x" 1 1 none []
    storeW "h" "B1" (le_refl 0)
  exact ⟨le_refl 0, ⟨h.1, h.2.1⟩,
    h.2.2.2.2 (by decide) (by decide) (by decide) (by decide) rfl⟩

/-! ## UI lookup post-processing (`query_hash` and `upload` in
`blueprints/ui.py`)

`parse` stands throughout for Python's `float(...)` applied to a rendered
distance string; only its values' order matters here. -/

/-- Python `min(float(match["distance"]) for match in bank_results)`:
`none` models the `ValueError` the `min` built-in raises on an empty
sequence. -/
def minDistance (parse : String → ℚ) : List MatchOut → Option ℚ
  | [] => none
  | m :: ms => some (ms.foldl (fun a x => min a (parse x.distance)) (parse m.distance))

/-- The minimum of a list of rationals, `none` when the list is empty. -/
def minOfList : List ℚ → Option ℚ
  | [] => none
  | d :: ds => some (ds.foldl min d)

/-- Combine two optional minima (`none` is the identity). -/
def optMin : Option ℚ → Option ℚ → Option ℚ
  | none, o => o
  | some d, none => some d
  | some d, some d' => some (min d d')

/-- The `query_hash` loop body over the lookup result: each bank paired
with the minimum distance of its matches; `none` as soon as some bank's
match list is empty (the raising `min`). -/
def bankMins (parse : String → ℚ) :
    List (String × List MatchOut) → Option (List (String × ℚ))
  | [] => some []
  | (b, l) :: rest =>
    match minDistance parse l with
    | none => none
    | some d => (bankMins parse rest).map fun r => (b, d) :: r

/-- The JSON body the `query_hash` route returns: the sorted list of
matched bank names and the per-bank minimum distances. -/
structure QueryHashResponse where
  banks : List String
  bank_matches : List (String × ℚ)

/-- The `query_hash` route of `blueprints/ui.py` after `matching.lookup`
returned `matches`: `bank_matches` maps every matched bank to the minimum
of its distances, `banks` is `sorted(matches.keys())`. -/
def query_hash (parse : String → ℚ) (found : List (String × List MatchOut)) :
    Option QueryHashResponse :=
  (bankMins parse found).map fun bm =>
    { banks := (found.map Prod.fst).insertionSort (· ≤ ·), bank_matches := bm }

/-- Lookup in the `bank_matches` dict (modelled as an association list in
insertion order). -/
def lookupBank : List (String × ℚ) → String → Option ℚ
  | [], _ => none
  | (b', d') :: rest, b => if b' = b then some d' else lookupBank rest b

/-- Overwrite the value of an existing key of the dict. -/
def setBank : List (String × ℚ) → String → ℚ → List (String × ℚ)
  | [], b, d => [(b, d)]
  | (b', d') :: rest, b, d =>
    if b' = b then (b', d) :: rest else (b', d') :: setBank rest b d

/-- The `upload` loop body:
`if bank_name not in bank_matches or min_distance < bank_matches[bank_name]`
then store `min_distance` (a fresh dict key is appended in insertion
order). -/
def updateBank (bm : List (String × ℚ)) (b : String) (d : ℚ) : List (String × ℚ) :=
  match lookupBank bm b with
  | none => bm ++ [(b, d)]
  | some d0 => if d < d0 then setBank bm b d else bm

/-- One signal type's inner loop of `upload`: fold its lookup result into
the accumulated `bank_matches`; `none` when some bank's match list is
empty. -/
def processSignalMatches (parse : String → ℚ) :
    List (String × ℚ) → List (String × List MatchOut) → Option (List (String × ℚ))
  | bm, [] => some bm
  | bm, (b, l) :: rest =>
    match minDistance parse l with
    | none => none
    | some d => processSignalMatches parse (updateBank bm b d) rest

/-- The outer loop of `upload` over `(signal type, lookup result)`
pairs. -/
def processSignals (parse : String → ℚ) :
    List (String × ℚ) → List (String × List (String × List MatchOut)) →
      Option (List (String × ℚ))
  | bm, [] => some bm
  | bm, (_, ms) :: rest =>
    match processSignalMatches parse bm ms with
    | none => none
    | some bm2 => processSignals parse bm2 rest

/-- The `upload` route of `blueprints/ui.py` after hashing and per-type
lookups: returns `(sorted(bank_matches.keys()), bank_matches)`. -/
def upload (parse : String → ℚ)
    (signalMatches : List (String × List (String × List MatchOut))) :
    Option (List String × List (String × ℚ)) :=
  (processSignals parse [] signalMatches).map fun bm =>
    ((bm.map Prod.fst).insertionSort (· ≤ ·), bm)

/-- All parsed distances bank `b` receives in one signal type's lookup
result. -/
def distancesFor (parse : String → ℚ) (b : String) :
    List (String × List MatchOut) → List ℚ
  | [] => []
  | (b', l) :: rest =>
    if b' = b then (l.map fun m => parse m.distance) ++ distancesFor parse b rest
    else distancesFor parse b rest

/-- All parsed distances bank `b` receives across every signal type's
lookup result. -/
def allDistancesFor (parse : String → ℚ) (b : String) :
    List (String × List (String × List MatchOut)) → List ℚ
  | [] => []
  | (_, ms) :: rest => distancesFor parse b ms ++ allDistancesFor parse b rest

lemma optMin_none_right (o : Option ℚ) : optMin o none = o := by
  cases o <;> rfl

lemma optMin_assoc (a b c : Option ℚ) :
    optMin (optMin a b) c = optMin a (optMin b c) := by
  cases a <;> cases b <;> cases c <;> simp [optMin, min_assoc]

lemma foldl_min_comm (x y : ℚ) (l : List ℚ) :
    l.foldl min (min x y) = min x (l.foldl min y) := by
  induction l generalizing y with
  | nil => rfl
  | cons z l ih =>
    simp only [List.foldl_cons]
    rw [min_assoc, ih]

lemma minDistance_eq (parse : String → ℚ) (l : List MatchOut) :
    minDistance parse l = minOfList (l.map fun m => parse m.distance) := by
  cases l with
  | nil => rfl
  | cons m ms =>
    simp only [minDistance, minOfList, List.map_cons]
    rw [List.foldl_map]

lemma minOfList_append (a b : List ℚ) :
    minOfList (a ++ b) = optMin (minOfList a) (minOfList b) := by
  cases a with
  | nil => rfl
  | cons d ds =>
    cases b with
    | nil => simp [minOfList, optMin]
    | cons e es =>
      simp only [List.cons_append, minOfList, List.foldl_append, List.foldl_cons,
        optMin]
      rw [foldl_min_comm]

lemma foldl_min_spec (e : ℚ) (es : List ℚ) :
    es.foldl min e ∈ e :: es ∧ ∀ x ∈ e :: es, es.foldl min e ≤ x := by
  induction es generalizing e with
  | nil => simp
  | cons z es ih =>
    rcases ih (min e z) with ⟨hmem, hle⟩
    simp only [List.foldl_cons]
    constructor
    · rcases List.mem_cons.1 hmem with hEq | hmem'
      · rcases min_choice e z with hm | hm
        · rw [hEq, hm]
          exact List.mem_cons_self e (z :: es)
        · rw [hEq, hm]
          exact List.mem_cons_of_mem e (List.mem_cons_self z es)
      · exact List.mem_cons_of_mem e (List.mem_cons_of_mem z hmem')
    · intro x hx
      rcases List.mem_cons.1 hx with rfl | hx'
      · exact le_trans (hle _ (List.mem_cons_self _ _)) (min_le_left _ _)
      · rcases List.mem_cons.1 hx' with rfl | hx''
        · exact le_trans (hle _ (List.mem_cons_self _ _)) (min_le_right _ _)
        · exact hle _ (List.mem_cons_of_mem _ hx'')

lemma minOfList_spec {l : List ℚ} {d : ℚ} (h : minOfList l = some d) :
    d ∈ l ∧ ∀ x ∈ l, d ≤ x := by
  cases l with
  | nil => cases h
  | cons e es =>
    simp only [minOfList, Option.some.injEq] at h
    subst h
    exact foldl_min_spec e es

lemma minDistance_ne_nil {parse : String → ℚ} {l : List MatchOut} (h : l ≠ []) :
    ∃ d, minDistance parse l = some d := by
  cases l with
  | nil => exact absurd rfl h
  | cons m ms => exact ⟨_, rfl⟩

lemma bankMins_some {parse : String → ℚ} {found : List (String × List MatchOut)}
    (h : ∀ p ∈ found, p.2 ≠ []) :
    ∃ bm, bankMins parse found = some bm ∧
      ∀ p ∈ found, ∃ d, (p.1, d) ∈ bm ∧ minDistance parse p.2 = some d := by
  induction found with
  | nil => exact ⟨[], rfl, by simp⟩
  | cons q rest ih =>
    rcases q with ⟨b, l⟩
    rcases @minDistance_ne_nil parse l (h (b, l) (List.mem_cons_self _ _))
      with ⟨d, hd⟩
    rcases ih (fun p hp => h p (List.mem_cons_of_mem _ hp)) with ⟨bm, hbm, hprop⟩
    refine ⟨(b, d) :: bm, by simp [bankMins, hd, hbm], ?_⟩
    intro p hp
    rcases List.mem_cons.1 hp with rfl | hp'
    · exact ⟨d, List.mem_cons_self _ _, hd⟩
    · rcases hprop p hp' with ⟨d', hmem, hmin⟩
      exact ⟨d', List.mem_cons_of_mem _ hmem, hmin⟩

lemma bankMins_none {parse : String → ℚ} {found : List (String × List MatchOut)}
    (h : ∃ p ∈ found, p.2 = []) : bankMins parse found = none := by
  induction found with
  | nil =>
    rcases h with ⟨p, hp, -⟩
    cases hp
  | cons q rest ih =>
    rcases q with ⟨b, l⟩
    rcases h with ⟨p, hp, hnil⟩
    rcases List.mem_cons.1 hp with rfl | hp'
    · have hl : l = [] := hnil
      subst hl
      rfl
    · cases hd : minDistance parse l with
      | none => simp [bankMins, hd]
      | some d => simp [bankMins, hd, ih ⟨p, hp', hnil⟩]

lemma lookupBank_setBank_self (bm : List (String × ℚ)) (b : String) (d : ℚ) :
    lookupBank (setBank bm b d) b = some d := by
  induction bm with
  | nil => simp [setBank, lookupBank]
  | cons q rest ih =>
    rcases q with ⟨b', d'⟩
    by_cases hb : b' = b
    · simp [setBank, lookupBank, hb]
    · simp [setBank, lookupBank, hb, ih]

lemma lookupBank_setBank_other (bm : List (String × ℚ)) (b : String) (d : ℚ)
    (b2 : String) (h : b2 ≠ b) :
    lookupBank (setBank bm b d) b2 = lookupBank bm b2 := by
  induction bm with
  | nil => simp [setBank, lookupBank, Ne.symm h]
  | cons q rest ih =>
    rcases q with ⟨b', d'⟩
    by_cases hb : b' = b
    · subst hb
      simp [setBank, lookupBank, Ne.symm h]
    · simp only [setBank, if_neg hb, lookupBank]
      by_cases hb2 : b' = b2
      · simp [hb2]
      · simp [hb2, ih]

lemma lookupBank_append_single (bm : List (String × ℚ)) (b : String) (d : ℚ)
    (b2 : String) :
    lookupBank (bm ++ [(b, d)]) b2 =
      match lookupBank bm b2 with
      | some x => some x
      | none => if b = b2 then some d else none := by
  induction bm with
  | nil => rfl
  | cons q rest ih =>
    rcases q with ⟨b', d'⟩
    by_cases hb : b' = b2 <;> simp [lookupBank, hb, ih]

lemma updateBank_of_none (bm : List (String × ℚ)) (b : String) (d : ℚ)
    (h : lookupBank bm b = none) : updateBank bm b d = bm ++ [(b, d)] := by
  unfold updateBank
  rw [h]

lemma updateBank_of_some (bm : List (String × ℚ)) (b : String) (d d0 : ℚ)
    (h : lookupBank bm b = some d0) :
    updateBank bm b d = if d < d0 then setBank bm b d else bm := by
  unfold updateBank
  rw [h]

lemma lookupBank_updateBank (bm : List (String × ℚ)) (b : String) (d : ℚ)
    (b2 : String) :
    lookupBank (updateBank bm b d) b2 =
      if b2 = b then
        some (match lookupBank bm b with | none => d | some d0 => min d0 d)
      else lookupBank bm b2 := by
  cases h0 : lookupBank bm b with
  | none =>
    rw [updateBank_of_none bm b d h0, lookupBank_append_single]
    by_cases hb : b2 = b
    · subst hb
      rw [h0]
    · rw [if_neg hb]
      cases hx : lookupBank bm b2 with
      | none => rw [if_neg (fun hh => hb hh.symm)]
      | some x => rfl
  | some d0 =>
    by_cases hd : d < d0
    · rw [updateBank_of_some bm b d d0 h0, if_pos hd]
      by_cases hb : b2 = b
      · subst hb
        rw [lookupBank_setBank_self]
        simp [min_eq_right hd.le]
      · rw [lookupBank_setBank_other _ _ _ _ hb, if_neg hb]
    · rw [updateBank_of_some bm b d d0 h0, if_neg hd]
      by_cases hb : b2 = b
      · subst hb
        rw [h0]
        simp [min_eq_left (not_lt.1 hd)]
      · rw [if_neg hb]

lemma lookupBank_eq_none_iff (bm : List (String × ℚ)) (b : String) :
    lookupBank bm b = none ↔ b ∉ bm.map Prod.fst := by
  induction bm with
  | nil => simp [lookupBank]
  | cons q rest ih =>
    rcases q with ⟨b', d'⟩
    by_cases hb : b' = b
    · subst hb
      simp [lookupBank]
    · simp [lookupBank, hb, Ne.symm hb, ih]

lemma processSignalMatches_lookup {parse : String → ℚ}
    {ms : List (String × List MatchOut)} :
    ∀ {bm bm' : List (String × ℚ)},
      processSignalMatches parse bm ms = some bm' →
      ∀ b, lookupBank bm' b =
        optMin (lookupBank bm b) (minOfList (distancesFor parse b ms)) := by
  induction ms with
  | nil =>
    intro bm bm' h b
    simp only [processSignalMatches, Option.some.injEq] at h
    subst h
    simp [distancesFor, minOfList, optMin_none_right]
  | cons q rest ih =>
    intro bm bm' h b
    rcases q with ⟨b0, l⟩
    cases hd : minDistance parse l with
    | none =>
      simp only [processSignalMatches, hd] at h
      cases h
    | some d =>
      simp only [processSignalMatches, hd] at h
      rw [ih h b, lookupBank_updateBank]
      by_cases hb : b = b0
      · subst hb
        rw [if_pos rfl]
        have hdist : distancesFor parse b ((b, l) :: rest) =
            (l.map fun m => parse m.distance) ++ distancesFor parse b rest := by
          simp [distancesFor]
        rw [hdist, minOfList_append, ← minDistance_eq parse l, hd, ← optMin_assoc]
        congr 1
        cases lookupBank bm b <;> rfl
      · rw [if_neg hb]
        have hdist : distancesFor parse b ((b0, l) :: rest) =
            distancesFor parse b rest := by
          simp only [distancesFor, if_neg (Ne.symm hb)]
        rw [hdist]

lemma processSignalMatches_some {parse : String → ℚ}
    {ms : List (String × List MatchOut)} (h : ∀ p ∈ ms, p.2 ≠ []) :
    ∀ bm, ∃ bm', processSignalMatches parse bm ms = some bm' := by
  induction ms with
  | nil => exact fun bm => ⟨bm, rfl⟩
  | cons q rest ih =>
    intro bm
    rcases q with ⟨b0, l⟩
    rcases @minDistance_ne_nil parse l (h (b0, l) (List.mem_cons_self _ _))
      with ⟨d, hd⟩
    rcases ih (fun p hp => h p (List.mem_cons_of_mem _ hp)) (updateBank bm b0 d)
      with ⟨bm', hbm'⟩
    exact ⟨bm', by simp [processSignalMatches, hd, hbm']⟩

lemma processSignalMatches_none {parse : String → ℚ}
    {ms : List (String × List MatchOut)} (h : ∃ p ∈ ms, p.2 = []) :
    ∀ bm, processSignalMatches parse bm ms = none := by
  induction ms with
  | nil =>
    rcases h with ⟨p, hp, -⟩
    cases hp
  | cons q rest ih =>
    intro bm
    rcases q with ⟨b0, l⟩
    rcases h with ⟨p, hp, hnil⟩
    rcases List.mem_cons.1 hp with rfl | hp'
    · have hl : l = [] := hnil
      subst hl
      rfl
    · cases hd : minDistance parse l with
      | none => simp [processSignalMatches, hd]
      | some d => simp [processSignalMatches, hd, ih ⟨p, hp', hnil⟩]

lemma processSignals_lookup {parse : String → ℚ}
    {sms : List (String × List (String × List MatchOut))} :
    ∀ {bm bm' : List (String × ℚ)},
      processSignals parse bm sms = some bm' →
      ∀ b, lookupBank bm' b =
        optMin (lookupBank bm b) (minOfList (allDistancesFor parse b sms)) := by
  induction sms with
  | nil =>
    intro bm bm' h b
    simp only [processSignals, Option.some.injEq] at h
    subst h
    simp [allDistancesFor, minOfList, optMin_none_right]
  | cons s rest ih =>
    intro bm bm' h b
    rcases s with ⟨sname, ms⟩
    cases hp : processSignalMatches parse bm ms with
    | none =>
      simp only [processSignals, hp] at h
      cases h
    | some bm2 =>
      simp only [processSignals, hp] at h
      rw [ih h b, processSignalMatches_lookup hp b]
      simp only [allDistancesFor]
      rw [minOfList_append, ← optMin_assoc]

lemma processSignals_some {parse : String → ℚ}
    {sms : List (String × List (String × List MatchOut))}
    (h : ∀ s ∈ sms, ∀ p ∈ s.2, p.2 ≠ []) :
    ∀ bm, ∃ bm', processSignals parse bm sms = some bm' := by
  induction sms with
  | nil => exact fun bm => ⟨bm, rfl⟩
  | cons s rest ih =>
    intro bm
    rcases s with ⟨sname, ms⟩
    rcases @processSignalMatches_some parse ms
        (h (sname, ms) (List.mem_cons_self _ _)) bm with ⟨bm2, hbm2⟩
    rcases ih (fun s hs => h s (List.mem_cons_of_mem _ hs)) bm2 with ⟨bm', hbm'⟩
    exact ⟨bm', by simp [processSignals, hbm2, hbm']⟩

lemma processSignals_none {parse : String → ℚ}
    {sms : List (String × List (String × List MatchOut))}
    (h : ∃ s ∈ sms, ∃ p ∈ s.2, p.2 = []) :
    ∀ bm, processSignals parse bm sms = none := by
  induction sms with
  | nil =>
    rcases h with ⟨s, hs, -⟩
    cases hs
  | cons s0 rest ih =>
    intro bm
    rcases s0 with ⟨sname, ms⟩
    rcases h with ⟨s, hs, hbad⟩
    rcases List.mem_cons.1 hs with rfl | hs'
    · have : ∃ p ∈ ms, p.2 = [] := hbad
      simp [processSignals, @processSignalMatches_none parse ms this bm]
    · cases hp : processSignalMatches parse bm ms with
      | none => simp [processSignals, hp]
      | some bm2 => simp [processSignals, hp, ih ⟨s, hs', hbad⟩]

/-- **C9**: in the `query_hash` route's post-processing of a lookup
result where every returned bank has at least one match (as the engine's
empty-bank-omission guarantees), `bank_matches` maps each matched bank to
the minimum of that bank's parsed distances and `banks` is the sorted
list (a permutation, ascending) of the matched bank names; were some
bank's match list empty, the `min` computation would raise (modelled as
`none`) instead of returning. Likewise for the `upload` route, whose
min-merge loop over several signal types' results assigns each bank the
minimum of all its parsed distances. -/
theorem ui_lookup_postprocessing (parse : String → ℚ)
    (found : List (String × List MatchOut))
    (sms : List (String × List (String × List MatchOut))) :
    ((∀ p ∈ found, p.2 ≠ []) →
      ∃ resp, query_hash parse found = some resp ∧
        resp.banks.Sorted (· ≤ ·) ∧
        List.Perm resp.banks (found.map Prod.fst) ∧
        ∀ p ∈ found, ∃ d, (p.1, d) ∈ resp.bank_matches ∧
          d ∈ p.2.map (fun m => parse m.distance) ∧
          ∀ m ∈ p.2, d ≤ parse m.distance) ∧
    ((∃ p ∈ found, p.2 = []) → query_hash parse found = none) ∧
    ((∀ s ∈ sms, ∀ p ∈ s.2, p.2 ≠ []) →
      ∃ banks bm, upload parse sms = some (banks, bm) ∧
        banks.Sorted (· ≤ ·) ∧
        (∀ b, lookupBank bm b = minOfList (allDistancesFor parse b sms)) ∧
        (∀ b, b ∈ banks ↔ lookupBank bm b ≠ none)) ∧
    ((∃ s ∈ sms, ∃ p ∈ s.2, p.2 = []) → upload parse sms = none) := by
  refine ⟨?_, ?_, ?_, ?_⟩
  · intro h
    rcases @bankMins_some parse found h with ⟨bm, hbm, hprop⟩
    refine ⟨⟨(found.map Prod.fst).insertionSort (· ≤ ·), bm⟩, ?_, ?_, ?_, ?_⟩
    · simp [query_hash, hbm]
    · exact List.sorted_insertionSort _ _
    · exact List.perm_insertionSort _ _
    · intro p hp
      rcases hprop p hp with ⟨d, hmem, hmin⟩
      rw [minDistance_eq] at hmin
      rcases minOfList_spec hmin with ⟨hdm, hle⟩
      exact ⟨d, hmem, hdm, fun m hm =>
        hle _ (List.mem_map_of_mem (fun m => parse m.distance) hm)⟩
  · intro h
    simp [query_hash, bankMins_none h]
  · intro h
    rcases @processSignals_some parse sms h [] with ⟨bm, hbm⟩
    refine ⟨(bm.map Prod.fst).insertionSort (· ≤ ·), bm, ?_, ?_, ?_, ?_⟩
    · simp [upload, hbm]
    · exact List.sorted_insertionSort _ _
    · intro b
      exact processSignals_lookup hbm b
    · intro b
      rw [List.mem_insertionSort]
      constructor
      · intro hmem hnone
        exact (lookupBank_eq_none_iff bm b).1 hnone hmem
      · intro hne
        by_contra hmem
        exact hne ((lookupBank_eq_none_iff bm b).2 hmem)
  · intro h
    simp [upload, processSignals_none h []]

end OpenMediaMatch
